import Mathlib

/-!
Verification of the shrek transaction logger.

The development shallowly embeds `src/index.ts`: the fixed-point coin
formatter (`formatCoinsPure`, `formatCoins`), the transaction summarizer
(`Logger.formatTransaction` / `logTransactions`), and the label registry
(`Logger.addContract` / `getContractLabel` / `shortenString`).
JavaScript bigints restricted to non-negative values are modelled as `Nat`,
`undefined`/`null` as `Option.none`, thrown errors as `Except.error`.
-/

namespace Shrek

/-! ### Decimal and hexadecimal digit strings

Models of JS `bigint.toString()` / `number.toString(16)`, `padStart(n, "0")`
and `.replace(/0+$/, "")`, working on lists of characters. -/

/-- Numeric value of a decimal digit character. -/
def digitVal (c : Char) : Nat := c.toNat - 48

/-- Value of a big-endian decimal digit string. -/
def digitsVal (l : List Char) : Nat :=
  l.foldl (fun acc c => acc * 10 + digitVal c) 0

/-- Fuel-driven decimal digit expansion, most significant digit first. -/
def natDigitsAux : Nat → Nat → List Char
  | 0, _ => []
  | fuel + 1, n =>
    if n < 10 then [Nat.digitChar n]
    else natDigitsAux fuel (n / 10) ++ [Nat.digitChar (n % 10)]

/-- Decimal digit characters of `n`, most significant first:
model of JS bigint `toString()` for non-negative values. -/
def natDigits (n : Nat) : List Char := natDigitsAux (n + 1) n

/-- Model of JS bigint `toString()`. -/
def natToString (n : Nat) : String := String.mk (natDigits n)

/-- Fuel-driven hexadecimal digit expansion. -/
def natHexAux : Nat → Nat → List Char
  | 0, _ => []
  | fuel + 1, n =>
    if n < 16 then [Nat.digitChar n]
    else natHexAux fuel (n / 16) ++ [Nat.digitChar (n % 16)]

/-- Model of JS `n.toString(16)` for non-negative `n` (lowercase hex). -/
def natToHexString (n : Nat) : String := String.mk (natHexAux (n + 1) n)

/-- Model of JS `String.prototype.padStart(len, "0")` on a digit list. -/
def padZeros (l : List Char) (len : Nat) : List Char :=
  List.replicate (len - l.length) '0' ++ l

/-- Model of JS `.replace(/0+$/, "")`: strip all trailing zero characters. -/
def stripTrailingZeros (l : List Char) : List Char :=
  (l.reverse.dropWhile (fun c => c == '0')).reverse

/-! ### The coin formatter (src/index.ts lines 191-247) -/

/-- `const decimalCount = 9` (src/index.ts line 191). -/
def decimalCount : Nat := 9

/-- `pow10`: the repeated-multiplication loop of src/index.ts lines 199-205.
The JS loop runs zero times for a non-positive exponent, returning `1`,
which matches `Nat` truncated subtraction feeding this function. -/
def pow10 : Nat → Nat
  | 0 => 1
  | n + 1 => pow10 n * 10

/-- `const decimal = pow10(decimalCount)` (src/index.ts line 192). -/
def decimal : Nat := pow10 decimalCount

/-- `formatCoinsPure` (src/index.ts lines 213-232).  The two sequential
mutations of `whole`/`frac` in the rounding `if` are expressed as one
pair-valued conditional. -/
def formatCoinsPure (value : Nat) (precision : Nat := 6) : String :=
  let whole := value / decimal
  let frac := value % decimal
  let precisionDecimal := pow10 (decimalCount - precision)
  let rounded : Nat × Nat :=
    if frac % precisionDecimal > 0 then
      if frac + precisionDecimal ≥ decimal then
        (whole + 1, frac + precisionDecimal - decimal)
      else
        (whole, frac + precisionDecimal)
    else (whole, frac)
  let numerator := rounded.2 / precisionDecimal
  natToString rounded.1 ++
    (if numerator ≠ 0 then
      "." ++ String.mk (stripTrailingZeros (padZeros (natDigits numerator) precision))
    else "")

/-- `formatCoins` (src/index.ts lines 240-247): JS `undefined` and `null`
are both modelled as `Option.none`. -/
def formatCoins (value : Option Nat) (precision : Nat := 6) : String :=
  match value with
  | none => "∞"
  | some v => formatCoinsPure v precision

/-! ### Reading a rendered decimal string back into subunits -/

/-- The number of subunits denoted by a rendered decimal string `"w"` or
`"w.f"`: the whole part scaled by `10^9` plus the fractional digits scaled
to the subunit grid. -/
def parseSubunits (s : String) : Nat :=
  let l := s.toList
  let wholePart := l.takeWhile (fun c => c != '.')
  let fracPart := (l.dropWhile (fun c => c != '.')).drop 1
  digitsVal wholePart * 10 ^ 9 + digitsVal fracPart * 10 ^ (9 - fracPart.length)

/-- Smallest multiple of `u` that is `≥ a` (ceiling to the `u` grid),
written the way the formatter's rounding step produces it. -/
def ceilGrid (a u : Nat) : Nat := if a % u = 0 then a else (a / u + 1) * u

/-! ### The formatting algorithm as the specification states it

A second definition, written from the specification's words alone, to be
compared with `formatCoinsPure` (refinement). -/

/-- The rounding step as the specification states it: split into
`whole`/`frac`, let `unit = 10^(9-p)`; if `frac mod unit > 0` add `unit`
to `frac`, and if `frac` then reaches or exceeds `10^9` subtract `10^9`
from `frac` and add `1` to `whole`. -/
def specRound (a p : Nat) : Nat × Nat :=
  let whole := a / 10 ^ 9
  let frac := a % 10 ^ 9
  let unit := 10 ^ (9 - p)
  if frac % unit > 0 then
    if 10 ^ 9 ≤ frac + unit then (whole + 1, frac + unit - 10 ^ 9)
    else (whole, frac + unit)
  else (whole, frac)

/-- The rendering as the specification states it: divide the carried `frac`
by `unit` to obtain the display numerator; render `whole`, followed — only
when the numerator is nonzero — by a decimal point and the numerator
left-padded with zeros to `p` digits with trailing zeros stripped. -/
def specFormat (a p : Nat) : String :=
  let unit := 10 ^ (9 - p)
  let numerator := (specRound a p).2 / unit
  natToString (specRound a p).1 ++
    (if numerator ≠ 0 then
      "." ++ String.mk (stripTrailingZeros (padZeros (natDigits numerator) p))
    else "")

/-! ### The label registry (src/index.ts lines 4-41, 182-189)

The `Logger`'s `contractLabels` JS `Map` is modelled as an insertion-ordered
association list; `Map.set` on a fresh key appends. -/

/-- `shortenString` (src/index.ts lines 187-189): JS `slice(0, 4)` and
`slice(-4)` on the character list. -/
def shortenString (s : String) : String :=
  if s.length ≤ 8 then s
  else String.mk (s.toList.take 4) ++ "..." ++
    String.mk (s.toList.drop (s.toList.length - 4))

/-- JS `Map.get` on the insertion-ordered association list (first match by
key equality; keys are unique here, so at most one match exists). -/
def findLabel (address : String) : List (String × String) → Option String
  | [] => none
  | (k, v) :: rest => if address = k then some v else findLabel address rest

/-- The duplicate-label error message thrown by `addContract`
(src/index.ts lines 25-27). -/
def dupMsg (address label : String) : String :=
  "The \x27" ++ address ++ "\x27 contract already has a \x27" ++ label ++ "\x27 label!"

/-- `Logger.addContract` (src/index.ts lines 18-31), keyed by the address
string; the thrown `Error` is an `Except.error`.  `Map.has` is
`(findLabel ...).isSome`; `Map.set` on a fresh key appends. -/
def addContract (labels : List (String × String)) (address label : String) :
    Except String (List (String × String)) :=
  if (findLabel address labels).isSome then Except.error (dupMsg address label)
  else Except.ok (labels ++ [(address, label)])

/-- JS `a || b` on a possibly-undefined string `a`: the empty string is
falsy, so it falls through to `b`. -/
def jsOrString : Option String → String → String
  | some s, fallback => if s = "" then fallback else s
  | none, fallback => fallback

/-- `Logger.getContractLabel` (src/index.ts lines 38-41):
`contractLabels.get(addr) || shortenString(addr)`. -/
def getContractLabel (labels : List (String × String)) (address : String) : String :=
  jsOrString (findLabel address labels) (shortenString address)

/-! ### The transaction model (the `@ton/core` fields the code reads) -/

/-- A message address: a proper `Address` (modelled by its string form) or
an `ExternalAddress`; `Address.isAddress` distinguishes them. -/
inductive MsgAddr
  | addr (a : String)
  | ext (e : String)
deriving DecidableEq, Repr

/-- `Address.isAddress`. -/
def MsgAddr.isAddress : MsgAddr → Bool
  | .addr _ => true
  | .ext _ => false

/-- The string form of an address-like value used as a registry key. -/
def MsgAddr.str : MsgAddr → String
  | .addr a => a
  | .ext e => e

/-- A currency collection: the `coins` bigint. -/
structure CurrencyCollection where
  coins : Nat
deriving DecidableEq, Repr

/-- `CommonMessageInfo`: the three message kinds, carrying the fields the
logger reads (`src`, `dest`, `value`). -/
inductive CommonMessageInfo
  | internal (src : MsgAddr) (dest : MsgAddr) (value : CurrencyCollection)
  | externalIn (src : Option MsgAddr) (dest : MsgAddr)
  | externalOut (src : MsgAddr) (dest : Option MsgAddr)
deriving DecidableEq, Repr

/-- The `info.type` string tag. -/
def CommonMessageInfo.typeTag : CommonMessageInfo → String
  | .internal .. => "internal"
  | .externalIn .. => "external-in"
  | .externalOut .. => "external-out"

/-- The `info.src` field (`undefined` for an absent source). -/
def CommonMessageInfo.src? : CommonMessageInfo → Option MsgAddr
  | .internal s _ _ => some s
  | .externalIn s _ => s
  | .externalOut s _ => some s

/-- The `info.dest` field (`undefined` for an absent destination). -/
def CommonMessageInfo.dest? : CommonMessageInfo → Option MsgAddr
  | .internal _ d _ => some d
  | .externalIn _ d => some d
  | .externalOut _ d => d

/-- `info.value.coins`, defined exactly when the message is internal. -/
def CommonMessageInfo.valueCoins? : CommonMessageInfo → Option Nat
  | .internal _ _ v => some v.coins
  | _ => none

/-- A message body slice, embedded by its parse: the bit count remaining
and the value `preloadUint(32)` would read. -/
structure BodySlice where
  remainingBits : Nat
  first32 : Nat
deriving DecidableEq, Repr

/-- A message: its info and its (possibly absent) body; `beginParse` is
absorbed into the `BodySlice` embedding. -/
structure Message where
  info : CommonMessageInfo
  body : Option BodySlice
deriving DecidableEq, Repr

/-- The action phase: the `totalActions` count the logger reads. -/
structure ActionPhase where
  totalActions : Nat
deriving DecidableEq, Repr

/-- The compute phase: a `"vm"` outcome with an exit code, or any other
(`skipped`) outcome. -/
inductive ComputePhase
  | vm (exitCode : Int)
  | skipped
deriving DecidableEq, Repr

/-- The transaction description: its `type` tag, optional action phase and
compute phase. -/
structure TransactionDescription where
  type : String
  actionPhase : Option ActionPhase
  computePhase : ComputePhase
deriving DecidableEq, Repr

/-- A transaction: optional inbound message, outbound messages in
dictionary order, total fees and description. -/
structure Transaction where
  inMessage : Option Message
  outMessages : List Message
  totalFees : CurrencyCollection
  description : TransactionDescription
deriving DecidableEq, Repr

/-! ### The display row and the summarizer (src/index.ts lines 71-140) -/

/-- A JS value that is either a string or an array of strings. -/
inductive StrOrList
  | str (s : String)
  | list (l : List String)
deriving DecidableEq, Repr

/-- A JS value that is either a number (here a count) or a string. -/
inductive NatOrStr
  | num (n : Nat)
  | str (s : String)
deriving DecidableEq, Repr

/-- A JS value that is either a number (here an exit code) or a string. -/
inductive IntOrStr
  | num (n : Int)
  | str (s : String)
deriving DecidableEq, Repr

/-- The object literal returned by `formatTransaction` (src/index.ts lines
118-139), with each field at its JS union type; `type` is `Option String`
because `tx.inMessage?.info.type` is `undefined` without an inbound
message. -/
structure DisplayRow where
  source : String
  destination : String
  type : Option String
  opcode : String
  incomingValue : String
  outgoingValue : StrOrList
  totalFees : String
  outgoingActionsCount : NatOrStr
  exitCode : IntOrStr
deriving DecidableEq, Repr

/-- The row built for a generic transaction (src/index.ts lines 97-139),
parameterized by the logger's label registry. -/
def mkRow (labels : List (String × String)) (tx : Transaction) : DisplayRow :=
  let body : Option BodySlice :=
    if (tx.inMessage.map (fun m => m.info.typeTag)) = some "internal" then
      tx.inMessage.bind (fun m => m.body)
    else none
  let op : Option Nat :=
    match body with
    | some b => if b.remainingBits ≥ 32 then some b.first32 else none
    | none => none
  let sourceLabel : String :=
    match tx.inMessage.bind (fun m => m.info.src?) with
    | some (MsgAddr.addr a) => getContractLabel labels a
    | _ => "Shrek"
  let destinationLabel : String :=
    match tx.inMessage.bind (fun m => m.info.dest?) with
    | some (MsgAddr.addr a) => getContractLabel labels a
    | _ => "Donkey"
  { source := sourceLabel
    destination := destinationLabel
    type := tx.inMessage.map (fun m => m.info.typeTag)
    opcode := match op with
      | some n => "0x" ++ natToHexString n
      | none => "0gR33n0gr"
    incomingValue := formatCoins
      (tx.inMessage.bind (fun m => m.info.valueCoins?)) 6
    outgoingValue :=
      if tx.outMessages.length = 0 then StrOrList.str "No coins!"
      else StrOrList.list
        ((tx.outMessages.filter (fun m => m.info.typeTag == "internal")).map
          (fun m => formatCoins m.info.valueCoins? 6))
    totalFees := formatCoins (some tx.totalFees.coins) 6
    outgoingActionsCount := match tx.description.actionPhase with
      | some ap => NatOrStr.num ap.totalActions
      | none => NatOrStr.str "No actions here?"
    exitCode := match tx.description.computePhase with
      | ComputePhase.vm ec => IntOrStr.num ec
      | ComputePhase.skipped => IntOrStr.str "Ogres have layers?" }

/-- `Logger.formatTransaction` (src/index.ts lines 90-140): non-generic
transactions yield `undefined` (`none`). -/
def formatTransaction (labels : List (String × String)) (tx : Transaction) :
    Option DisplayRow :=
  if tx.description.type ≠ "generic" then none
  else some (mkRow labels tx)

/-- The row sequence `Logger.logTransactions` passes to `console.table`
(src/index.ts lines 79-82): format each transaction, drop the `undefined`
results. -/
def logTransactionsRows (labels : List (String × String))
    (txs : List Transaction) : List DisplayRow :=
  (txs.map (formatTransaction labels)).filterMap id

/-! ### Concrete example records used to instantiate the theorems -/

/-- A generic transaction with no inbound and no outbound messages. -/
def exTxEmptyOut : Transaction :=
  { inMessage := none
    outMessages := []
    totalFees := { coins := 0 }
    description := { type := "generic", actionPhase := none,
                     computePhase := ComputePhase.skipped } }

/-- A storage-phase (non-generic) transaction. -/
def exTxNonGeneric : Transaction :=
  { inMessage := none
    outMessages := []
    totalFees := { coins := 0 }
    description := { type := "storage", actionPhase := none,
                     computePhase := ComputePhase.skipped } }

/-- A generic transaction whose inbound message is absent, used for the
`Type` field claims. -/
def exTxNoIn : Transaction :=
  { inMessage := none
    outMessages := [{ info := CommonMessageInfo.externalOut
                        (MsgAddr.addr "EQsrc") (some (MsgAddr.ext "extdst")),
                      body := none }]
    totalFees := { coins := 5 }
    description := { type := "generic", actionPhase := some { totalActions := 1 },
                     computePhase := ComputePhase.vm 0 } }

/-! ### Lemmas: digit strings -/

theorem pow10_eq (n : Nat) : pow10 n = 10 ^ n := by
  induction n with
  | zero => rfl
  | succ n ih => simp [pow10, ih, pow_succ]

theorem decimal_eq : decimal = 10 ^ 9 := by
  simp [decimal, decimalCount, pow10_eq]

theorem digitVal_digitChar : ∀ d < 10, digitVal (Nat.digitChar d) = d := by decide

theorem digitChar_ne_dot : ∀ d < 10, (Nat.digitChar d != '.') = true := by decide

theorem digitsVal_foldl (l : List Char) (a : Nat) :
    l.foldl (fun acc c => acc * 10 + digitVal c) a =
      a * 10 ^ l.length + digitsVal l := by
  induction l generalizing a with
  | nil => simp [digitsVal]
  | cons c l ih =>
    simp only [List.foldl_cons, List.length_cons, digitsVal]
    rw [ih (a * 10 + digitVal c), ih (0 * 10 + digitVal c)]
    ring

theorem digitsVal_append_singleton (l : List Char) (c : Char) :
    digitsVal (l ++ [c]) = digitsVal l * 10 + digitVal c := by
  simp [digitsVal, List.foldl_append]

theorem foldl_replicate_zero (j : Nat) (a : Nat) :
    (List.replicate j '0').foldl (fun acc c => acc * 10 + digitVal c) a =
      a * 10 ^ j := by
  induction j generalizing a with
  | zero => simp
  | succ j ih =>
    rw [List.replicate_succ, List.foldl_cons, ih]
    have h0 : digitVal '0' = 0 := by decide
    rw [h0]
    ring

theorem digitsVal_append_replicate (l : List Char) (j : Nat) :
    digitsVal (l ++ List.replicate j '0') = digitsVal l * 10 ^ j := by
  simp [digitsVal, List.foldl_append, foldl_replicate_zero]

theorem digitsVal_replicate_append (k : Nat) (l : List Char) :
    digitsVal (List.replicate k '0' ++ l) = digitsVal l := by
  simp [digitsVal, List.foldl_append, foldl_replicate_zero]

theorem natDigitsAux_sound (fuel : Nat) :
    ∀ n < fuel, digitsVal (natDigitsAux fuel n) = n := by
  induction fuel with
  | zero => intro n h; omega
  | succ fuel ih =>
    intro n h
    by_cases h10 : n < 10
    · simp [natDigitsAux, h10, digitsVal, digitVal_digitChar n h10]
    · have h1 : n / 10 * 10 ≤ n := Nat.div_mul_le_self n 10
      have hrec : n / 10 < fuel := by omega
      rw [natDigitsAux, if_neg h10, digitsVal_append_singleton, ih _ hrec,
        digitVal_digitChar (n % 10) (Nat.mod_lt n (by norm_num))]
      omega

theorem digitsVal_natDigits (n : Nat) : digitsVal (natDigits n) = n :=
  natDigitsAux_sound (n + 1) n (Nat.lt_succ_self n)

theorem natDigitsAux_mem (fuel : Nat) :
    ∀ n, ∀ c ∈ natDigitsAux fuel n, ∃ d, d < 10 ∧ c = Nat.digitChar d := by
  induction fuel with
  | zero => intro n c hc; simp [natDigitsAux] at hc
  | succ fuel ih =>
    intro n c hc
    by_cases h10 : n < 10
    · rw [natDigitsAux, if_pos h10] at hc
      simp at hc
      exact ⟨n, h10, hc⟩
    · rw [natDigitsAux, if_neg h10] at hc
      rcases List.mem_append.mp hc with hc | hc
      · exact ih _ c hc
      · simp at hc
        exact ⟨n % 10, Nat.mod_lt n (by omega), hc⟩

theorem natDigits_ne_dot (n : Nat) : ∀ c ∈ natDigits n, (c != '.') = true := by
  intro c hc
  obtain ⟨d, hd, rfl⟩ := natDigitsAux_mem (n + 1) n c hc
  exact digitChar_ne_dot d hd

theorem natDigitsAux_length (fuel : Nat) :
    ∀ n p, n < fuel → 0 < p → n < 10 ^ p → (natDigitsAux fuel n).length ≤ p := by
  induction fuel with
  | zero => intro n p h; omega
  | succ fuel ih =>
    intro n p hf hp hn
    by_cases h10 : n < 10
    · rw [natDigitsAux, if_pos h10]
      simpa using hp
    · have hp2 : 2 ≤ p := by
        rcases Nat.lt_or_ge p 2 with h2 | h2
        · have hp1 : p = 1 := by omega
          subst hp1
          simp at hn
          omega
        · exact h2
      have h1 : n / 10 * 10 ≤ n := Nat.div_mul_le_self n 10
      have hrec : n / 10 < fuel := by omega
      have hsplit : 10 ^ p = 10 ^ (p - 1) * 10 := by
        rw [← pow_succ]
        congr 1
        omega
      have hdiv : n / 10 < 10 ^ (p - 1) := by
        rw [Nat.div_lt_iff_lt_mul (by norm_num : (0:Nat) < 10)]
        omega
      have hlen := ih (n / 10) (p - 1) hrec (by omega) hdiv
      rw [natDigitsAux, if_neg h10]
      simp only [List.length_append, List.length_cons, List.length_nil]
      omega

theorem natDigits_length (n p : Nat) (hp : 0 < p) (hn : n < 10 ^ p) :
    (natDigits n).length ≤ p :=
  natDigitsAux_length (n + 1) n p (Nat.lt_succ_self n) hp hn

/-! ### Lemmas: splitting rendered strings -/

theorem takeWhile_all {α : Type} (q : α → Bool) (l : List α)
    (h : ∀ c ∈ l, q c = true) : l.takeWhile q = l := by
  induction l with
  | nil => rfl
  | cons a l ih =>
    rw [List.takeWhile_cons, h a (List.mem_cons_self a l)]
    rw [ih (fun c hc => h c (List.mem_cons_of_mem a hc))]
    simp

theorem dropWhile_all {α : Type} (q : α → Bool) (l : List α)
    (h : ∀ c ∈ l, q c = true) : l.dropWhile q = [] := by
  induction l with
  | nil => rfl
  | cons a l ih =>
    rw [List.dropWhile_cons, h a (List.mem_cons_self a l)]
    simp only [if_true]
    exact ih (fun c hc => h c (List.mem_cons_of_mem a hc))

theorem takeWhile_append_all {α : Type} (q : α → Bool) (l₁ l₂ : List α)
    (h : ∀ c ∈ l₁, q c = true) :
    (l₁ ++ l₂).takeWhile q = l₁ ++ l₂.takeWhile q := by
  induction l₁ with
  | nil => simp
  | cons a l ih =>
    rw [List.cons_append, List.takeWhile_cons, h a (List.mem_cons_self a l)]
    simp only [if_true]
    rw [ih (fun c hc => h c (List.mem_cons_of_mem a hc)), List.cons_append]

theorem dropWhile_append_all {α : Type} (q : α → Bool) (l₁ l₂ : List α)
    (h : ∀ c ∈ l₁, q c = true) :
    (l₁ ++ l₂).dropWhile q = l₂.dropWhile q := by
  induction l₁ with
  | nil => simp
  | cons a l ih =>
    rw [List.cons_append, List.dropWhile_cons, h a (List.mem_cons_self a l)]
    simp only [if_true]
    exact ih (fun c hc => h c (List.mem_cons_of_mem a hc))

theorem stripTrailingZeros_spec (l : List Char) :
    ∃ j, stripTrailingZeros l ++ List.replicate j '0' = l := by
  refine ⟨(l.reverse.takeWhile (fun c => c == '0')).length, ?_⟩
  have htake : l.reverse.takeWhile (fun c => c == '0') =
      List.replicate (l.reverse.takeWhile (fun c => c == '0')).length '0' := by
    apply List.eq_replicate_of_mem
    intro b hb
    have hq := List.mem_takeWhile_imp hb
    simpa [beq_iff_eq] using hq
  have key := congrArg List.reverse
    (List.takeWhile_append_dropWhile
      (p := fun c => c == '0') (l := l.reverse))
  rw [List.reverse_append, List.reverse_reverse] at key
  simp only [stripTrailingZeros]
  rw [← List.reverse_replicate, ← htake]
  exact key

theorem toList_append (s t : String) : (s ++ t).toList = s.toList ++ t.toList := by
  cases s
  cases t
  rfl

theorem toList_mk (l : List Char) : (String.mk l).toList = l := rfl

/-- Reading back a rendered string `whole ++ ["." ++ padded-and-stripped
numerator]` recovers `whole` units plus `numerator` display increments. -/
theorem parse_render (w n p : Nat) (hp : p ≤ 9) (hn : n < 10 ^ p) :
    parseSubunits (natToString w ++
      (if n ≠ 0 then
        "." ++ String.mk (stripTrailingZeros (padZeros (natDigits n) p))
      else "")) = w * 10 ^ 9 + n * 10 ^ (9 - p) := by
  have hall := natDigits_ne_dot w
  by_cases hn0 : n = 0
  · subst hn0
    rw [if_neg (by simp)]
    have hl : (natToString w ++ "").toList = natDigits w := by
      rw [toList_append]
      simp [natToString, toList_mk]
    simp only [parseSubunits, hl]
    rw [takeWhile_all _ _ hall, dropWhile_all _ _ hall, digitsVal_natDigits]
    simp [digitsVal]
  · rw [if_pos hn0]
    have hp0 : 0 < p := by
      rcases Nat.eq_zero_or_pos p with h0 | h0
      · subst h0
        simp at hn
        omega
      · exact h0
    have hl : (natToString w ++
        ("." ++ String.mk (stripTrailingZeros (padZeros (natDigits n) p)))).toList =
        natDigits w ++ ('.' :: stripTrailingZeros (padZeros (natDigits n) p)) := by
      rw [toList_append, toList_append]
      simp [natToString, toList_mk]
    simp only [parseSubunits, hl]
    rw [takeWhile_append_all _ _ _ hall, dropWhile_append_all _ _ _ hall]
    rw [List.takeWhile_cons, List.dropWhile_cons]
    have hdot : (('.' : Char) != '.') = false := by decide
    rw [hdot]
    simp only [Bool.false_eq_true, if_false, List.append_nil, List.drop_succ_cons,
      List.drop_zero]
    -- the numerator side
    have hdlen : (natDigits n).length ≤ p := natDigits_length n p hp0 hn
    obtain ⟨j, hj⟩ := stripTrailingZeros_spec (padZeros (natDigits n) p)
    have hpadlen : (padZeros (natDigits n) p).length = p := by
      simp [padZeros]
      omega
    have hpadval : digitsVal (padZeros (natDigits n) p) = n := by
      simp [padZeros, digitsVal_replicate_append, digitsVal_natDigits]
    have hlen : (stripTrailingZeros (padZeros (natDigits n) p)).length + j = p := by
      have hlj := congrArg List.length hj
      simp only [List.length_append, List.length_replicate] at hlj
      omega
    have hval :
        digitsVal (stripTrailingZeros (padZeros (natDigits n) p)) * 10 ^ j = n := by
      have hv := congrArg digitsVal hj
      rwa [digitsVal_append_replicate, hpadval] at hv
    have harith :
        digitsVal (stripTrailingZeros (padZeros (natDigits n) p)) *
          10 ^ (9 - (stripTrailingZeros (padZeros (natDigits n) p)).length) =
        n * 10 ^ (9 - p) := by
      have h9 : 9 - (stripTrailingZeros (padZeros (natDigits n) p)).length =
          j + (9 - p) := by omega
      rw [h9, pow_add, ← mul_assoc, hval]
    rw [digitsVal_natDigits, harith]

/-! ### Lemmas: the formatter computes a grid ceiling -/

theorem formatCoinsPure_eq (value precision : Nat) :
    formatCoinsPure value precision =
      (let whole := value / 10 ^ 9
       let frac := value % 10 ^ 9
       let u := 10 ^ (9 - precision)
       let rounded : Nat × Nat :=
         if frac % u > 0 then
           if frac + u ≥ 10 ^ 9 then (whole + 1, frac + u - 10 ^ 9)
           else (whole, frac + u)
         else (whole, frac)
       let numerator := rounded.2 / u
       natToString rounded.1 ++
         (if numerator ≠ 0 then
           "." ++ String.mk (stripTrailingZeros (padZeros (natDigits numerator) precision))
         else "")) := by
  simp only [formatCoinsPure, decimal, decimalCount, pow10_eq]

/-- The subunit value read back from the formatted string is exactly the
ceiling of the amount to the `10^(9-p)` grid. -/
theorem parse_format (a p : Nat) (hp : p ≤ 9) :
    parseSubunits (formatCoinsPure a p) = ceilGrid a (10 ^ (9 - p)) := by
  have hu : 0 < 10 ^ (9 - p) := pow_pos (by norm_num) _
  have hpu : 10 ^ p * 10 ^ (9 - p) = 10 ^ 9 := by
    rw [← pow_add]
    congr 1
    omega
  have hFlt : a % 10 ^ 9 < 10 ^ 9 := Nat.mod_lt a (by norm_num)
  have ha : 10 ^ 9 * (a / 10 ^ 9) + a % 10 ^ 9 = a := Nat.div_add_mod a (10 ^ 9)
  have hmul : ∀ x : Nat, 10 ^ 9 * x = 10 ^ (9 - p) * (10 ^ p * x) := by
    intro x
    rw [← hpu]
    ring
  have ha' : a = 10 ^ (9 - p) * (10 ^ p * (a / 10 ^ 9)) + a % 10 ^ 9 := by
    conv_lhs => rw [← ha]
    rw [hmul]
  have hau : a / 10 ^ (9 - p) = 10 ^ p * (a / 10 ^ 9) + a % 10 ^ 9 / 10 ^ (9 - p) := by
    conv_lhs => rw [ha']
    rw [Nat.mul_add_div hu]
  have hamod : a % 10 ^ (9 - p) = a % 10 ^ 9 % 10 ^ (9 - p) := by
    conv_lhs => rw [ha']
    rw [Nat.mul_add_mod]
  rw [formatCoinsPure_eq]
  by_cases hr : a % 10 ^ 9 % 10 ^ (9 - p) = 0
  · -- no rounding
    simp only [gt_iff_lt]
    rw [if_neg (by omega)]
    have hnum : a % 10 ^ 9 / 10 ^ (9 - p) < 10 ^ p := by
      rw [Nat.div_lt_iff_lt_mul hu]
      omega
    rw [parse_render (a / 10 ^ 9) (a % 10 ^ 9 / 10 ^ (9 - p)) p hp hnum]
    rw [ceilGrid, if_pos (by omega)]
    rw [Nat.div_mul_cancel (Nat.dvd_of_mod_eq_zero hr)]
    omega
  · by_cases hc : 10 ^ 9 ≤ a % 10 ^ 9 + 10 ^ (9 - p)
    · -- rounding carries into the whole part
      simp only [gt_iff_lt]
      rw [if_pos (by omega), if_pos (by omega)]
      have hnum0 : (a % 10 ^ 9 + 10 ^ (9 - p) - 10 ^ 9) / 10 ^ (9 - p) = 0 :=
        Nat.div_eq_of_lt (by omega)
      simp only [hnum0]
      rw [parse_render (a / 10 ^ 9 + 1) 0 p hp (pow_pos (by norm_num) p)]
      rw [ceilGrid, if_neg (by omega)]
      have hqlow : 10 ^ p - 1 ≤ a % 10 ^ 9 / 10 ^ (9 - p) := by
        rw [Nat.le_div_iff_mul_le hu, Nat.sub_mul, one_mul, hpu]
        omega
      have hqhigh : a % 10 ^ 9 / 10 ^ (9 - p) < 10 ^ p := by
        rw [Nat.div_lt_iff_lt_mul hu]
        omega
      have hq : a % 10 ^ 9 / 10 ^ (9 - p) = 10 ^ p - 1 := by omega
      rw [hau, hq]
      have hp1 : 0 < 10 ^ p := pow_pos (by norm_num) p
      have hstep : 10 ^ p * (a / 10 ^ 9) + (10 ^ p - 1) + 1 =
          10 ^ p * (a / 10 ^ 9 + 1) := by
        rw [Nat.mul_add, Nat.mul_one]
        omega
      rw [hstep, mul_comm (10 ^ p) (a / 10 ^ 9 + 1), mul_assoc, hpu]
      ring
    · -- rounding stays within the fractional part
      simp only [gt_iff_lt]
      rw [if_pos (by omega), if_neg hc]
      have hnum : (a % 10 ^ 9 + 10 ^ (9 - p)) / 10 ^ (9 - p) =
          a % 10 ^ 9 / 10 ^ (9 - p) + 1 := Nat.add_div_right _ hu
      simp only [hnum]
      have hlt : a % 10 ^ 9 / 10 ^ (9 - p) + 1 < 10 ^ p := by
        have : a % 10 ^ 9 + 10 ^ (9 - p) < 10 ^ p * 10 ^ (9 - p) := by omega
        have h2 : (a % 10 ^ 9 + 10 ^ (9 - p)) / 10 ^ (9 - p) < 10 ^ p := by
          rw [Nat.div_lt_iff_lt_mul hu]
          omega
        rwa [hnum] at h2
      rw [parse_render (a / 10 ^ 9) (a % 10 ^ 9 / 10 ^ (9 - p) + 1) p hp hlt]
      rw [ceilGrid, if_neg (by omega), hau]
      rw [Nat.add_mul, Nat.add_mul, Nat.add_mul, mul_comm (10 ^ p) (a / 10 ^ 9),
        mul_assoc, hpu]
      ring

/-! ### Lemmas: grid-ceiling facts -/

theorem le_ceilGrid (a u : Nat) (hu : 0 < u) : a ≤ ceilGrid a u := by
  rw [ceilGrid]
  split_ifs with h
  · exact le_refl a
  · have hmod : a % u < u := Nat.mod_lt a hu
    have hdm : u * (a / u) + a % u = a := Nat.div_add_mod a u
    have hexp : (a / u + 1) * u = u * (a / u) + u := by ring
    omega

theorem ceilGrid_le_mul (a m u : Nat) (_hu : 0 < u) (h : a ≤ m * u) :
    ceilGrid a u ≤ m * u := by
  rw [ceilGrid]
  split_ifs with h0
  · exact h
  · have hdm : u * (a / u) + a % u = a := Nat.div_add_mod a u
    have hdiv : a / u < m := by
      by_contra hge
      push_neg at hge
      have h1 : m * u ≤ a / u * u := Nat.mul_le_mul_right u hge
      have h2 : a / u * u ≤ a := Nat.div_mul_le_self a u
      have hcomm : a / u * u = u * (a / u) := Nat.mul_comm _ _
      omega
    exact Nat.mul_le_mul_right u (by omega)

theorem ceilGrid_mono (a b u : Nat) (hu : 0 < u) (hab : a ≤ b) :
    ceilGrid a u ≤ ceilGrid b u := by
  have hb := le_ceilGrid b u hu
  by_cases h0 : b % u = 0
  · have hbu : b / u * u = b := Nat.div_mul_cancel (Nat.dvd_of_mod_eq_zero h0)
    have h2 : ceilGrid b u = b := by rw [ceilGrid, if_pos h0]
    have h1 : ceilGrid a u ≤ b / u * u := ceilGrid_le_mul a (b / u) u hu (by omega)
    omega
  · have h2 : ceilGrid b u = (b / u + 1) * u := by rw [ceilGrid, if_neg h0]
    have h1 : ceilGrid a u ≤ (b / u + 1) * u :=
      ceilGrid_le_mul a (b / u + 1) u hu (by omega)
    omega

/-! ### The claims about the formatter -/

/-- C1: for every non-negative amount `a` and precision `p` in `[0,9]`,
`formatCoinsPure` follows the stated algorithm — split into
`whole = a div 10^9` and `frac = a mod 10^9`, round `frac` up by
`unit = 10^(9-p)` when it has sub-unit residue, carry into `whole` when it
reaches `10^9`, divide by `unit`, and render `whole` followed (only for a
nonzero numerator) by a point and the zero-padded, trailing-zero-stripped
numerator; in particular `format(123456789, 6) = "0.123457"`. -/
theorem formatCoinsPure_follows_stated_algorithm :
    (∀ a p : Nat, p ≤ 9 → formatCoinsPure a p = specFormat a p) ∧
    formatCoins (some 123456789) 6 = "0.123457" := by
  constructor
  · intro a p hp
    rw [formatCoinsPure_eq]
    simp only [specFormat, specRound, ge_iff_le]
  · rfl

theorem formatCoinsPure_follows_stated_algorithm_witness :
    formatCoinsPure 123456789 6 = specFormat 123456789 6 :=
  formatCoinsPure_follows_stated_algorithm.1 123456789 6 (by norm_num)

/-- C2: for every non-negative amount `a` and precision `p` in `[0,9]`, the
subunit value denoted by `formatCoinsPure a p` differs from `a`'s truncation
to the `10^(9-p)` grid by at most one grid unit. -/
theorem formatCoins_parse_within_one_unit (a p : Nat) (hp : p ≤ 9) :
    a / 10 ^ (9 - p) * 10 ^ (9 - p) ≤ parseSubunits (formatCoinsPure a p) ∧
    parseSubunits (formatCoinsPure a p) ≤
      a / 10 ^ (9 - p) * 10 ^ (9 - p) + 10 ^ (9 - p) := by
  rw [parse_format a p hp, ceilGrid]
  split_ifs with h
  · have hc : a / 10 ^ (9 - p) * 10 ^ (9 - p) = a :=
      Nat.div_mul_cancel (Nat.dvd_of_mod_eq_zero h)
    omega
  · have hexp : (a / 10 ^ (9 - p) + 1) * 10 ^ (9 - p) =
        a / 10 ^ (9 - p) * 10 ^ (9 - p) + 10 ^ (9 - p) := by ring
    omega

theorem formatCoins_parse_within_one_unit_witness :
    123456789 / 10 ^ (9 - 6) * 10 ^ (9 - 6) ≤
      parseSubunits (formatCoinsPure 123456789 6) ∧
    parseSubunits (formatCoinsPure 123456789 6) ≤
      123456789 / 10 ^ (9 - 6) * 10 ^ (9 - 6) + 10 ^ (9 - 6) :=
  formatCoins_parse_within_one_unit 123456789 6 (by norm_num)

/-- C3: for every fixed precision `p` in `[0,9]`, the value denoted by the
formatted string is monotone in the amount. -/
theorem formatCoins_parse_monotone (a b p : Nat) (hab : a ≤ b) (hp : p ≤ 9) :
    parseSubunits (formatCoinsPure a p) ≤ parseSubunits (formatCoinsPure b p) := by
  rw [parse_format a p hp, parse_format b p hp]
  exact ceilGrid_mono a b _ (pow_pos (by norm_num) _) hab

theorem formatCoins_parse_monotone_witness :
    parseSubunits (formatCoinsPure 3 6) ≤ parseSubunits (formatCoinsPure 123456789 6) :=
  formatCoins_parse_monotone 3 123456789 6 (by norm_num) (by norm_num)

/-- C4: `format(999999999, 6) = "1"`: the one-subunit-below-one-unit amount
carries into the whole part at precision 6. -/
theorem formatCoins_boundary_carries : formatCoins (some 999999999) 6 = "1" := by
  rfl

/-- C5: formatting an absent amount returns the fixed sentinel `"∞"`, the
same string for every precision. -/
theorem formatCoins_absent_sentinel : ∀ p : Nat, formatCoins none p = "∞" :=
  fun _ => rfl

/-! ### Lemmas: the summarizer and the registry -/

theorem formatTransaction_some (labels : List (String × String))
    (tx : Transaction) (row : DisplayRow)
    (h : formatTransaction labels tx = some row) : row = mkRow labels tx := by
  by_cases hg : tx.description.type ≠ "generic"
  · rw [formatTransaction, if_pos hg] at h
    cases h
  · rw [formatTransaction, if_neg hg] at h
    exact (Option.some_inj.mp h).symm

theorem findLabel_append_right (st : List (String × String)) (addr v : String)
    (h : findLabel addr st = none) :
    findLabel addr (st ++ [(addr, v)]) = some v := by
  induction st with
  | nil => simp [findLabel]
  | cons kv st ih =>
    obtain ⟨k, b⟩ := kv
    by_cases hk : addr = k
    · rw [findLabel, if_pos hk] at h
      cases h
    · rw [findLabel, if_neg hk] at h
      rw [List.cons_append, findLabel, if_neg hk]
      exact ih h

/-! ### The claims about the summarizer and the registry -/

/-- C6: for every summarized transaction, zero outbound messages yield the
literal `"No coins!"` sentinel; otherwise the Outgoing Value is the ordered
list of formatted amounts of exactly the internal-kind outbound messages,
so an all-non-internal transaction yields an empty list, distinguishable
from the sentinel. -/
theorem outgoingValue_cases (labels : List (String × String)) (tx : Transaction)
    (row : DisplayRow) (h : formatTransaction labels tx = some row) :
    (tx.outMessages = [] → row.outgoingValue = StrOrList.str "No coins!") ∧
    (tx.outMessages ≠ [] → row.outgoingValue = StrOrList.list
      ((tx.outMessages.filter (fun m => m.info.typeTag == "internal")).map
        (fun m => formatCoins m.info.valueCoins? 6))) ∧
    ((∀ m ∈ tx.outMessages, m.info.typeTag ≠ "internal") → tx.outMessages ≠ [] →
      row.outgoingValue = StrOrList.list []) ∧
    StrOrList.list [] ≠ StrOrList.str "No coins!" := by
  have hrow := formatTransaction_some labels tx row h
  subst hrow
  refine ⟨?_, ?_, ?_, by decide⟩
  · intro hout
    simp [mkRow, hout]
  · intro hout
    have hlen : tx.outMessages.length ≠ 0 := by
      simpa [List.length_eq_zero] using hout
    simp [mkRow, hlen]
  · intro hnone hout
    have hlen : tx.outMessages.length ≠ 0 := by
      simpa [List.length_eq_zero] using hout
    have hfilter : tx.outMessages.filter (fun m => m.info.typeTag == "internal") = [] := by
      rw [List.filter_eq_nil_iff]
      intro m hm
      simp [hnone m hm]
    simp [mkRow, hlen, hfilter]

theorem outgoingValue_cases_witness :
    (mkRow [] exTxEmptyOut).outgoingValue = StrOrList.str "No coins!" :=
  (outgoingValue_cases [] exTxEmptyOut (mkRow [] exTxEmptyOut) rfl).1 rfl

/-- C7: a transaction whose outcome classification is not `"generic"`
summarizes to `none`, and a batch renders exactly the rows of its
generic-outcome transactions, in order. -/
theorem nonGeneric_excluded :
    (∀ (labels : List (String × String)) (tx : Transaction),
      tx.description.type ≠ "generic" → formatTransaction labels tx = none) ∧
    (∀ (labels : List (String × String)) (txs : List Transaction),
      logTransactionsRows labels txs =
        (txs.filter (fun tx => tx.description.type == "generic")).map (mkRow labels)) := by
  constructor
  · intro labels tx hg
    rw [formatTransaction, if_pos hg]
  · intro labels txs
    induction txs with
    | nil => rfl
    | cons t ts ih =>
      by_cases hg : t.description.type = "generic"
      · have hf : formatTransaction labels t = some (mkRow labels t) := by
          rw [formatTransaction, if_neg (by simp [hg])]
        simp only [logTransactionsRows, List.map_cons, List.filterMap_cons, hf,
          List.filter_cons, hg] at ih ⊢
        simp [ih]
      · have hf : formatTransaction labels t = none := by
          rw [formatTransaction, if_pos hg]
        have hbeq : (t.description.type == "generic") = false := by
          simp [hg]
        simp only [logTransactionsRows, List.map_cons, List.filterMap_cons, hf,
          List.filter_cons, hbeq] at ih ⊢
        simp [ih]

theorem nonGeneric_excluded_witness :
    formatTransaction [] exTxNonGeneric = none :=
  nonGeneric_excluded.1 [] exTxNonGeneric (by decide)

/-- C8: registering a second label for an already-labelled address key
raises the duplicate-label error, and the first label stays associated
with the key. -/
theorem addContract_duplicate_fails (st : List (String × String))
    (addr l1 l2 : String) (st' : List (String × String))
    (h : addContract st addr l1 = Except.ok st') :
    addContract st' addr l2 = Except.error (dupMsg addr l2) ∧
    findLabel addr st' = some l1 := by
  by_cases hmem : (findLabel addr st).isSome = true
  · rw [addContract, if_pos hmem] at h
    cases h
  · rw [addContract, if_neg hmem] at h
    injection h with h'
    subst h'
    have hnone : findLabel addr st = none := by
      cases hopt : findLabel addr st with
      | none => rfl
      | some v => rw [hopt] at hmem; simp at hmem
    have hfound : findLabel addr (st ++ [(addr, l1)]) = some l1 :=
      findLabel_append_right st addr l1 hnone
    constructor
    · rw [addContract, if_pos (by simp [hfound])]
    · exact hfound

theorem addContract_duplicate_fails_witness :
    addContract [("EQabc", "Counter")] "EQabc" "Deployer" =
      Except.error (dupMsg "EQabc" "Deployer") ∧
    findLabel "EQabc" [("EQabc", "Counter")] = some "Counter" :=
  addContract_duplicate_fails [] "EQabc" "Counter" "Deployer"
    [("EQabc", "Counter")] rfl

/-- C9 (counterexample): the claim that every summarized row's `Type` field
carries a defined value fails — a generic transaction with no inbound
message gets the JS `undefined` (`none`) as its `Type` value. -/
theorem displayRow_type_defined_counterexample :
    ¬ (∀ (labels : List (String × String)) (tx : Transaction) (row : DisplayRow),
        formatTransaction labels tx = some row → row.type.isSome = true) := by
  intro h
  have h2 := h [] exTxNoIn (mkRow [] exTxNoIn) rfl
  rw [show (mkRow [] exTxNoIn).type = none from rfl] at h2
  simp at h2

/-- C9 (amended): the `Type` field is the inbound message's kind tag
verbatim when an inbound message exists; when there is no inbound message
the field's value is the JS `undefined` (`Option.none`), not a defined
sentinel string — the key is still present on the row, but its value is
undefined. All remaining fields always carry defined values (they are
non-optional by construction). -/
theorem displayRow_type_amended (labels : List (String × String))
    (tx : Transaction) (row : DisplayRow)
    (h : formatTransaction labels tx = some row) :
    row.type = tx.inMessage.map (fun m => m.info.typeTag) ∧
    (∀ m, tx.inMessage = some m → row.type = some m.info.typeTag) ∧
    (tx.inMessage = none → row.type = none) := by
  have hrow := formatTransaction_some labels tx row h
  subst hrow
  refine ⟨rfl, ?_, ?_⟩
  · intro m hm
    simp [mkRow, hm]
  · intro hm
    simp [mkRow, hm]

theorem displayRow_type_amended_witness :
    (mkRow [] exTxNoIn).type = exTxNoIn.inMessage.map (fun m => m.info.typeTag) ∧
    (∀ m, exTxNoIn.inMessage = some m →
      (mkRow [] exTxNoIn).type = some m.info.typeTag) ∧
    (exTxNoIn.inMessage = none → (mkRow [] exTxNoIn).type = none) :=
  displayRow_type_amended [] exTxNoIn (mkRow [] exTxNoIn) rfl

/-- C10: label resolution treats an empty-string label as absent (JS `||`
falsiness): the registered label is returned only when non-empty, otherwise
the shortened address — the address itself when at most 8 characters, else
its first 4 characters, `"..."`, and its last 4 characters. -/
theorem getContractLabel_empty_label_fallback (labels : List (String × String))
    (addr : String) :
    (∀ l, findLabel addr labels = some l → l ≠ "" →
      getContractLabel labels addr = l) ∧
    (findLabel addr labels = some "" →
      getContractLabel labels addr = shortenString addr) ∧
    (findLabel addr labels = none →
      getContractLabel labels addr = shortenString addr) ∧
    (addr.length ≤ 8 → shortenString addr = addr) ∧
    (8 < addr.length → (shortenString addr).toList =
      addr.toList.take 4 ++ ['.', '.', '.'] ++
        addr.toList.drop (addr.toList.length - 4)) := by
  refine ⟨?_, ?_, ?_, ?_, ?_⟩
  · intro l hl hne
    simp [getContractLabel, hl, jsOrString, hne]
  · intro hl
    simp [getContractLabel, hl, jsOrString]
  · intro hl
    simp [getContractLabel, hl, jsOrString]
  · intro hlen
    rw [shortenString, if_pos hlen]
  · intro hlen
    rw [shortenString, if_neg (by omega)]
    rw [toList_append, toList_append, toList_mk, toList_mk]
    rfl

theorem getContractLabel_empty_label_fallback_witness :
    getContractLabel [("EQabc", "Counter")] "EQabc" = "Counter" :=
  (getContractLabel_empty_label_fallback [("EQabc", "Counter")] "EQabc").1
    "Counter" rfl (by decide)

end Shrek
